import Mathlib

/-!
# Verification of the coordination-detection pipeline

Shallow embedding of `src/X/src/07_detect_coordination.py` (plus the item
helpers it uses) and proofs about its passes:

* pass 1: global item frequency counting (`item_counts`),
* pass 2: time-bucket partitioning (`bucket_of`, `pass2_lines`),
* pass 3a: per-bucket pair aggregation (`itemUsers`, `itemPairIncrements`,
  `bucketTop`),
* pass 3b: user-item bipartite accumulation (`pass3b_entries`),
* pass 4: streaming reduction of the `pair_signal` store into coordination
  edges (`reducePairs`), and
* pass 5 / reports: which artifacts get written (`runReports`).

Records are modelled after the JSONL rows consumed by the script.  Python
truthiness on optional string fields collapses "missing" and the empty
string; the embedding uses `""` for an absent string field, matching that
behaviour.  The `published_ts` field carries the result of `parse_ts` on
the `published_at` field (`none` when the timestamp is missing or not
parseable by `datetime.fromisoformat`); the ISO-8601 parser itself is the
Python standard library's and is not re-modelled.
-/

/-- Configuration constant `WINDOW_SECS` from the source. -/
def WINDOW_SECS : Nat := 3600

/-- Configuration constant `MIN_OCC` (minimum per-signal occurrences). -/
def MIN_OCC : Nat := 2

/-- Configuration constant `MIN_ITEM_FREQ` (global frequency filter). -/
def MIN_ITEM_FREQ : Nat := 5

/-- Configuration constant `MAX_USERS_PER_ITEM` (per-item pairwise cap). -/
def MAX_USERS_PER_ITEM : Nat := 200

/-- Configuration constant `MAX_EDGES_FOR_GRAPH`. -/
def MAX_EDGES_FOR_GRAPH : Nat := 2000000

/-- One input record of `data/comments.jsonl` as read by
`07_detect_coordination.py`.  String fields use `""` for absent values
(Python truthiness treats both identically in this script); `published_ts`
is the result of `parse_ts` on the raw `published_at` string. -/
structure Rec where
  published_ts : Option Int
  author_id : String
  urls : List String
  domains : List String
  hashtags : List String
  mentions : List String
  retweeted_tweet_id : String
  quoted_tweet_id : String
  conversation_id : String
  video_id : String
  in_reply_to_status_id_str : String
deriving DecidableEq, Repr

/-- `add_items`: append `(signal, v)` for every non-empty `v` in `values`. -/
def add_items (items : List (String × String)) (signal : String)
    (values : List String) : List (String × String) :=
  items ++ (values.filter (fun v => v ≠ "")).map (fun v => (signal, v))

/-- `extract_items`: the typed (signal, value) items of one record, in the
order the Python function appends them. -/
def extract_items (r : Rec) : List (String × String) :=
  let items := add_items [] "A_URL" r.urls
  let items := add_items items "A_DOM" r.domains
  let items := add_items items "B_TAG" r.hashtags
  let items := add_items items "C_MENT" r.mentions
  let items := if r.retweeted_tweet_id ≠ "" then
    items ++ [("D_RETWEET", r.retweeted_tweet_id)] else items
  let items := if r.quoted_tweet_id ≠ "" then
    items ++ [("D_QUOTE", r.quoted_tweet_id)] else items
  let conv := if r.conversation_id ≠ "" then r.conversation_id else r.video_id
  let items := if conv ≠ "" then items ++ [("E_CONV", conv)] else items
  let items := if r.in_reply_to_status_id_str ≠ "" then
    items ++ [("E_REPLY", r.in_reply_to_status_id_str)] else items
  items

/-- `to_bip_item`: map a (signal, value) item to its bipartite-graph node
label, or `none` for signal kinds that are not part of the bipartite view. -/
def to_bip_item (signal value : String) : Option String :=
  if value = "" then none
  else if signal = "A_DOM" then some ("DOM:" ++ value)
  else if signal = "D_RETWEET" then some ("RT:" ++ value)
  else if signal = "E_CONV" then some ("CONV:" ++ value)
  else if signal = "C_MENT" then some ("MENT:@" ++ value)
  else if signal = "B_TAG" then some ("TAG:#" ++ value)
  else none

/-- Items a record contributes to pass 1 (the global frequency count):
all of its extracted items when the timestamp parses, nothing otherwise.
Pass 1 performs no user check. -/
def pass1_items (r : Rec) : List (String × String) :=
  match r.published_ts with
  | none => []
  | some _ => extract_items r

/-- Pass-1 global count of one item over a record stream:
`item_counts[key] += 1` per occurrence in `extract_items`. -/
def item_counts (recs : List Rec) (it : String × String) : Nat :=
  ((recs.flatMap pass1_items).filter (fun k => k = it)).length

/-- The keep-set test for the frequency filter (`c >= MIN_ITEM_FREQ`,
with the threshold as a parameter). -/
def kept_item (minItemFreq : Nat) (recs : List Rec) (it : String × String) : Bool :=
  minItemFreq ≤ item_counts recs it

/-- Time-bucket id: Python `ts // WINDOW_SECS` (floor division). -/
def bucket_of (window : Nat) (ts : Int) : Int :=
  Int.fdiv ts window

/-- One line of a bucket TSV file: signal, value, user. -/
structure Line where
  signal : String
  value : String
  user : String
deriving DecidableEq, Repr

/-- The bucket-file lines one record contributes in pass 2: dropped when
the timestamp does not parse or the user is falsy, else one line per
extracted item in the keep-set (all go to the bucket of the record's
timestamp). -/
def pass2_lines (keep : String × String → Bool) (r : Rec) : List Line :=
  match r.published_ts with
  | none => []
  | some _ =>
    if r.author_id = "" then []
    else (extract_items r).filterMap (fun sv =>
      if keep sv then some ⟨sv.1, sv.2, r.author_id⟩ else none)

/-- The `(user, item_id)` pairs one record contributes in pass 3b (the
`user_item` accumulator): dropped when the timestamp does not parse or the
user is falsy; kept items are mapped through `to_bip_item`, and items it
rejects are skipped. -/
def pass3b_entries (keep : String × String → Bool) (r : Rec) : List (String × String) :=
  match r.published_ts with
  | none => []
  | some _ =>
    if r.author_id = "" then []
    else (extract_items r).filterMap (fun sv =>
      if keep sv then (to_bip_item sv.1 sv.2).map (fun item => (r.author_id, item))
      else none)

/-- First-occurrence deduplication: the insertion order of a Python
`dict` / the element set of a Python `set`, used to model
`item_users: dict[item, set[user]]` (all downstream consumers of the sets
are order-insensitive: they take `len` or `sorted`). -/
def firstDedupAux {α : Type} [DecidableEq α] (seen : List α) : List α → List α
  | [] => []
  | x :: xs =>
    if x ∈ seen then firstDedupAux seen xs
    else x :: firstDedupAux (x :: seen) xs

/-- First-occurrence deduplication of a list. -/
def firstDedup {α : Type} [DecidableEq α] (l : List α) : List α :=
  firstDedupAux [] l

/-- The items of a bucket file, in first-occurrence order (the key order
of the `item_users` dict). -/
def bucketItems (lines : List Line) : List (String × String) :=
  firstDedup (lines.map (fun l => (l.signal, l.value)))

/-- The distinct users of one item in a bucket file (`item_users[item]`),
as a duplicate-free list in first-insertion order. -/
def itemUsers (lines : List Line) (it : String × String) : List String :=
  firstDedup ((lines.filter (fun l => (l.signal, l.value) = it)).map (fun l => l.user))

/-- All ordered pairs `(l[i], l[j])` with `i < j` of a list, the order the
double loop `for i in range(n): for j in range(i+1, n)` produces. -/
def orderedPairs {α : Type} : List α → List (α × α)
  | [] => []
  | x :: xs => (xs.map (fun y => (x, y))) ++ orderedPairs xs

/-- The pairwise increments one item contributes to `bucket_counts` in a
bucket: nothing for fewer than 2 users or more than `cap` users, else one
`(user_a, user_b, signal)` key per unordered pair of its sorted distinct
users. -/
def itemPairIncrements (cap : Nat) (lines : List Line) (it : String × String) :
    List (String × String × String) :=
  let users := itemUsers lines it
  if users.length < 2 then []
  else if cap < users.length then []
  else (orderedPairs (List.insertionSort (fun a b => a ≤ b) users)).map
    (fun ab => (ab.1, ab.2, it.1))

/-- The `top_item` / `top_signal` tracking loop of pass 3a: fold over the
items in dict order keeping the first strict maximum of the distinct-user
count, once for the item and once for its signal.  The state is
`(top_item, top_item_users, top_signal, top_signal_users)`; the item is
kept as its (signal, value) pair (the source formats it as
`f"{signal}:{value}"` when reporting). -/
def bucketTopStep (lines : List Line)
    (st : Option (String × String) × Nat × Option String × Nat)
    (it : String × String) : Option (String × String) × Nat × Option String × Nat :=
  let ucount := (itemUsers lines it).length
  let st1 := if st.2.1 < ucount then (some it, ucount) else (st.1, st.2.1)
  let st2 := if st.2.2.2 < ucount then (some it.1, ucount) else (st.2.2.1, st.2.2.2)
  (st1.1, st1.2, st2.1, st2.2)

def bucketTop (lines : List Line) :
    Option (String × String) × Nat × Option String × Nat :=
  (bucketItems lines).foldl (bucketTopStep lines) (none, 0, none, 0)

/-- `top_item` of a bucket, as a (signal, value) pair. -/
def bucketTopItem (lines : List Line) : Option (String × String) :=
  (bucketTop lines).1

/-- `top_signal` of a bucket. -/
def bucketTopSignal (lines : List Line) : Option String :=
  (bucketTop lines).2.2.1

/-- Modelled from the spec (refinement comparison for the `top_signal`
claim): the number of distinct users across ALL items of one signal kind
in a bucket — the size of the union of the user sets of its items. -/
def specSignalUnionUsers (lines : List Line) (signal : String) : Nat :=
  (firstDedup ((lines.filter (fun l => l.signal = signal)).map (fun l => l.user))).length

/-- A row of the `pair_signal` store as streamed in pass 4. -/
structure PRow where
  user_a : String
  user_b : String
  signal : String
  cnt : Nat
deriving DecidableEq, Repr

/-- A row of the edge CSV (one emitted CoordinationEdge).  `signals` is
the sorted list of met signal kinds; `signal_counts` is the accumulated
per-signal dict in insertion order. -/
structure PEdge where
  user_a : String
  user_b : String
  num_signals : Nat
  total_occurrences : Nat
  signals : List String
  signal_counts : List (String × Nat)
deriving DecidableEq, Repr

/-- `sig_counts[signal] = sig_counts.get(signal, 0) + cnt` on an
insertion-ordered association list (a Python dict). -/
def sigAdd (m : List (String × Nat)) (s : String) (c : Nat) : List (String × Nat) :=
  if m.any (fun p => p.1 = s) then
    m.map (fun p => if p.1 = s then (p.1, p.2 + c) else p)
  else m ++ [(s, c)]

/-- `signals_met`: the signal kinds whose accumulated count meets the
per-signal minimum. -/
def signalsMet (minOcc : Nat) (m : List (String × Nat)) : List String :=
  (m.filter (fun p => minOcc ≤ p.2)).map (fun p => p.1)

/-- The emission step of the reduction loop: when at least `minKinds`
signal kinds are met, emit one edge for the finished `(user_a, user_b)`
key (the source writes the CSV row with the met-signal count, the total
over ALL signals, the sorted met signals and the raw per-signal dict). -/
def flushEdges (minOcc minKinds : Nat) (p : String × String)
    (m : List (String × Nat)) (t : Nat) : List PEdge :=
  let met := signalsMet minOcc m
  if minKinds ≤ met.length then
    [⟨p.1, p.2, met.length, t, List.insertionSort (fun a b => a ≤ b) met, m⟩]
  else []

/-- The body of the pass-4 loop after the first row fixed the current
key: accumulate rows of the current `(user_a, user_b)` key, and on key
change emit (or drop) the finished key and restart the accumulators from
the incoming row; the trailing key is flushed at end of input. -/
def reduceAux (minOcc minKinds : Nat) :
    List PRow → (String × String) × List (String × Nat) × Nat → List PEdge
  | [], st => flushEdges minOcc minKinds st.1 st.2.1 st.2.2
  | row :: rest, st =>
    if (row.user_a, row.user_b) = st.1 then
      reduceAux minOcc minKinds rest
        (st.1, sigAdd st.2.1 row.signal row.cnt, st.2.2 + row.cnt)
    else
      flushEdges minOcc minKinds st.1 st.2.1 st.2.2 ++
        reduceAux minOcc minKinds rest
          ((row.user_a, row.user_b), sigAdd [] row.signal row.cnt, row.cnt)

/-- Pass 4: the streaming reduction of the ordered `pair_signal` scan into
coordination edges.  The source guards the first row with
`if current is None: current = key`, so the state starts from the first
row's key with empty accumulators, which then immediately absorb it. -/
def reducePairs (minOcc minKinds : Nat) : List PRow → List PEdge
  | [] => []
  | row :: rest =>
    reduceAux minOcc minKinds rest
      ((row.user_a, row.user_b), sigAdd [] row.signal row.cnt, row.cnt)

/-- The rows of the store belonging to one `(user_a, user_b)` key: one
`PRow` per `(signal, cnt)` entry. -/
def groupRows (p : String × String) (sigs : List (String × Nat)) : List PRow :=
  sigs.map (fun sc => ⟨p.1, p.2, sc.1, sc.2⟩)

/-- A store serialized in an order grouped by `(user_a, user_b)` (what the
`ORDER BY user_a, user_b` scan guarantees): the concatenation of each
key's rows. -/
def flattenGroups (gs : List ((String × String) × List (String × Nat))) : List PRow :=
  gs.flatMap (fun g => groupRows g.1 g.2)

/-- Replaying a list of `(signal, cnt)` entries into the accumulator dict. -/
def foldSig (m : List (String × Nat)) (sigs : List (String × Nat)) : List (String × Nat) :=
  sigs.foldl (fun acc sc => sigAdd acc sc.1 sc.2) m

/-- What the reduction loop does with one whole key group. -/
def emitGroup (minOcc minKinds : Nat)
    (g : (String × String) × List (String × Nat)) : List PEdge :=
  flushEdges minOcc minKinds g.1 (foldSig [] g.2) ((g.2.map (fun sc => sc.2)).sum)

/-- Configuration constant `MAX_BIP_EDGES`. -/
def MAX_BIP_EDGES : Nat := 3000000

/-- The per-bucket statistics record written to the time-window report. -/
structure BucketStat where
  active_users : Nat
  num_coord_edges_created : Nat
  top_signal : String
  top_item : String
deriving DecidableEq, Repr

/-- The `BucketStats` entry pass 3a records for one bucket file. -/
def bucketStatsOf (cap : Nat) (lines : List Line) : BucketStat :=
  { active_users := (firstDedup (lines.map (fun l => l.user))).length
    num_coord_edges_created :=
      ((bucketItems lines).map (fun it =>
        let n := (itemUsers lines it).length
        if 2 ≤ n ∧ n ≤ cap then n * (n - 1) / 2 else 0)).sum
    top_signal := (bucketTopSignal lines).getD ""
    top_item := match bucketTopItem lines with
      | some sv => sv.1 ++ ":" ++ sv.2
      | none => "" }

/-- A row of the cluster CSV. -/
structure ClusterRow where
  cluster_id : Nat
  size : Nat
  users_sample : List String
  top_signals : List (String × Nat)
deriving DecidableEq, Repr

/-- A row of the top-clusters report. -/
structure TopClusterRow where
  cluster_id : Nat
  size : Nat
  top_signals : List (String × Nat)
  top_users : List String
  top_items : List String
deriving DecidableEq, Repr

/-- Merge the components touched by a new undirected edge (model of
`networkx` connected-component bookkeeping over the built graph). -/
def compsAddEdge (comps : List (List String)) (a b : String) :
    List (List String) :=
  let touching := comps.filter (fun c => a ∈ c ∨ b ∈ c)
  let rest := comps.filter (fun c => ¬ (a ∈ c ∨ b ∈ c))
  rest ++ [firstDedup (touching.flatMap id ++ [a, b])]

/-- Connected components of the coordination graph built from the emitted
edges (each edge adds both endpoints). -/
def connComponents (es : List (String × String)) : List (List String) :=
  es.foldl (fun comps ab => compsAddEdge comps ab.1 ab.2) []

/-- A multiset of strings as a Python `Counter` in insertion order. -/
def counterList (l : List String) : List (String × Nat) :=
  (firstDedup l).map (fun s => (s, (l.filter (fun x => x = s)).length))

/-- `Counter.most_common(n)`: entries sorted by count descending (stable,
so ties keep insertion order), truncated to `n`. -/
def mostCommon (n : Nat) (c : List (String × Nat)) : List (String × Nat) :=
  (List.insertionSort (fun p q => q.2 ≤ p.2) c).take n

/-- The signal labels attached to the graph edge between `u` and `v`
(`G.edges[u, v]["signals"]`), taken from the first emitted edge joining
them in either orientation. -/
def edgeSignals (ges : List PEdge) (u v : String) : List String :=
  match ges.find? (fun e =>
      (e.user_a = u ∧ e.user_b = v) ∨ (e.user_a = v ∧ e.user_b = u)) with
  | some e => e.signals
  | none => []

/-- The neighbors of `u` in the coordination graph. -/
def graphNeighbors (ges : List PEdge) (u : String) : List String :=
  firstDedup (ges.flatMap (fun e =>
    if e.user_a = u then [e.user_b]
    else if e.user_b = u then [e.user_a]
    else []))

/-- Weighted degree of a user in the coordination graph
(`G.degree(weight="weight")`). -/
def weightedDegree (ges : List PEdge) (u : String) : Nat :=
  (ges.map (fun e =>
    if e.user_a = u ∨ e.user_b = u then e.total_occurrences else 0)).sum

/-- The per-cluster signal multiset: every incident edge's signal list,
seen once from each endpoint, as in the double loop over
`comp × neighbors`. -/
def clusterSignalCounter (ges : List PEdge) (comp : List String) :
    List (String × Nat) :=
  counterList (comp.flatMap (fun u =>
    (graphNeighbors ges u).flatMap (fun v => edgeSignals ges u v)))

/-- The cluster CSV rows: one per connected component, sorted by size
descending after numbering. -/
def clusterRowsOf (ges : List PEdge) : List ClusterRow :=
  let comps := connComponents (ges.map (fun e => (e.user_a, e.user_b)))
  let rows := (comps.zip (List.range comps.length)).map (fun ci =>
    { cluster_id := ci.2
      size := ci.1.length
      users_sample := ci.1.take 20
      top_signals := mostCommon 5 (clusterSignalCounter ges ci.1) : ClusterRow })
  List.insertionSort (fun p q : ClusterRow => q.size ≤ p.size) rows

/-- The top-clusters report rows (T1): per component, the ten users with
the highest weighted degree and the ten bipartite items with the highest
accumulated weight among the component's users, sorted by size
descending. -/
def topClusterRowsOf (ges : List PEdge) (clusters : List ClusterRow)
    (bip : List (String × String × Nat)) : List TopClusterRow :=
  let comps := connComponents (ges.map (fun e => (e.user_a, e.user_b)))
  let rows := (comps.zip (List.range comps.length)).map (fun ci =>
    let topUsers := (List.insertionSort
      (fun a b => weightedDegree ges b ≤ weightedDegree ges a) ci.1).take 10
    let itemWeights := firstDedup (ci.1.flatMap (fun u =>
        (bip.filter (fun e => e.1 = u)).map (fun e => e.2.1))) |>.map (fun item =>
          (item, (bip.map (fun e =>
            if e.2.1 = item ∧ e.1 ∈ ci.1 then e.2.2 else 0)).sum))
    { cluster_id := ci.2
      size := ci.1.length
      top_signals := (clusters.find? (fun c => c.cluster_id = ci.2)).elim []
        (fun c => c.top_signals)
      top_users := topUsers
      top_items := ((List.insertionSort (fun p q : String × Nat => q.2 ≤ p.2)
        itemWeights).take 10).map (fun p => p.1) : TopClusterRow })
  List.insertionSort (fun p q : TopClusterRow => q.size ≤ p.size) rows

/-- The top-edges report (T2): the fifty entries with the largest
(total_occurrences, arrival index), reported in descending order of
total_occurrences.  (The source keeps them in a bounded min-heap keyed by
`(score, seq)`; the final CSV order among equal scores follows the heap's
internal layout, modelled here as descending `(score, seq)`.) -/
def topEdgesReport (edges : List PEdge) : List PEdge :=
  ((List.insertionSort (fun p q : PEdge × Nat =>
      q.1.total_occurrences < p.1.total_occurrences ∨
        (q.1.total_occurrences = p.1.total_occurrences ∧ q.2 ≤ p.2))
    (edges.zip (List.range edges.length))).take 50).map (fun p => p.1)

/-- Which files pass 4/5 write, and with which rows.  An `Option` field is
`none` when the corresponding file is not written at all on that run. -/
structure Artifacts where
  edges_csv : List PEdge
  clusters_csv : List ClusterRow
  graph_gexf_written : Bool
  bip_gexf_written : Bool
  top_clusters_csv : Option (List TopClusterRow)
  top_edges_csv : List PEdge
  time_windows_csv : List (Int × BucketStat)
deriving DecidableEq, Repr

/-- Passes 4 and 5 after the store scans: given the emitted edge rows, the
`user_item` rows selected for the bipartite graph and the collected bucket
statistics, produce every report artifact with the source's branching:
the cluster CSV is written (possibly header-only) in both branches, the
GEXF graphs only when non-empty, and the top-clusters report only when the
coordination graph has at least one node. -/
def runReports (edges : List PEdge) (bip : List (String × String × Nat))
    (stats : List (Int × BucketStat)) : Artifacts :=
  let ges := edges.take MAX_EDGES_FOR_GRAPH
  let graphNodesPos := !ges.isEmpty
  let graphOk := graphNodesPos && decide (edges.length ≤ MAX_EDGES_FOR_GRAPH)
  let clusters := if graphOk then clusterRowsOf ges else []
  { edges_csv := edges
    clusters_csv := clusters
    graph_gexf_written := graphOk && graphNodesPos
    bip_gexf_written := !bip.isEmpty
    top_clusters_csv :=
      if graphNodesPos then some (topClusterRowsOf ges clusters bip) else none
    top_edges_csv := topEdgesReport edges
    time_windows_csv :=
      List.insertionSort (fun p q : Int × BucketStat => p.1 ≤ q.1) stats }

/-- Modelled from the spec (refinement comparison for the frequency-count
claim): the number of timestamped records containing a given item at least
once — each record counted at most once regardless of repeats inside it.
The code's actual count is `item_counts`. -/
def specEventsContaining (recs : List Rec) (it : String × String) : Nat :=
  (recs.filter (fun r => decide (it ∈ pass1_items r))).length

/-- A timestamped record whose `hashtags` field repeats the same tag
(used to separate occurrence counting from per-event counting). -/
def rC4 : Rec := ⟨some 0, "u1", [], [], ["x", "x"], [], "", "", "", "", ""⟩

/-- A timestamped record with a single hashtag and a user. -/
def rC4w : Rec := ⟨some 0, "u1", [], [], ["x"], [], "", "", "", "", ""⟩

/-- A timestamped record with a hashtag but no user identifier. -/
def rC6 : Rec := ⟨some 0, "", [], [], ["x"], [], "", "", "", "", ""⟩

/-- A record with a user but no parseable timestamp. -/
def rC6b : Rec := ⟨none, "u1", [], [], ["x"], [], "", "", "", "", ""⟩

/-- A record contributing one domain item to the bipartite view. -/
def rC10 : Rec := ⟨some 0, "u1", [], ["example.com"], [], [], "", "", "", "", ""⟩

/-- A bucket file in which one item is shared by two users. -/
def linesC2 : List Line := [⟨"B_TAG", "x", "u1"⟩, ⟨"B_TAG", "x", "u2"⟩]

/-- A bucket file in which one item is shared by three users. -/
def linesC3 : List Line := [⟨"S", "v", "a"⟩, ⟨"S", "v", "b"⟩, ⟨"S", "v", "c"⟩]

/-- A bucket file where the single best item belongs to signal kind `S1`
(3 users) while kind `S2` reaches 4 distinct users over two items. -/
def linesC5 : List Line :=
  [⟨"S1", "v1", "a"⟩, ⟨"S1", "v1", "b"⟩, ⟨"S1", "v1", "c"⟩,
   ⟨"S2", "v2", "d"⟩, ⟨"S2", "v2", "e"⟩,
   ⟨"S2", "v3", "f"⟩, ⟨"S2", "v3", "g"⟩]

/-- A small grouped `pair_signal` store: the pair (a,b) has two signals
meeting count 2, the pair (a,c) only one signal below it. -/
def gsW : List ((String × String) × List (String × Nat)) :=
  [(("a", "b"), [("A_DOM", 2), ("B_TAG", 3)]), (("a", "c"), [("A_DOM", 1)])]

/-- The same small store as a flat row list. -/
def rowsW : List PRow :=
  [⟨"a", "b", "A_DOM", 2⟩, ⟨"a", "b", "B_TAG", 3⟩, ⟨"a", "c", "A_DOM", 1⟩]

/-! ## Helper lemmas -/

theorem mem_firstDedupAux {α : Type} [DecidableEq α] (l : List α) :
    ∀ (seen : List α) (x : α), x ∈ firstDedupAux seen l ↔ (x ∈ l ∧ x ∉ seen) := by
  induction l with
  | nil => intro seen x; simp [firstDedupAux]
  | cons a l ih =>
    intro seen x
    by_cases h : a ∈ seen
    · simp only [firstDedupAux, if_pos h, ih, List.mem_cons]
      constructor
      · exact fun hx => ⟨Or.inr hx.1, hx.2⟩
      · rintro ⟨hx | hx, hns⟩
        · exact absurd (hx ▸ h) hns
        · exact ⟨hx, hns⟩
    · simp only [firstDedupAux, if_neg h, List.mem_cons, ih]
      constructor
      · rintro (rfl | ⟨hx, hns⟩)
        · exact ⟨Or.inl rfl, h⟩
        · exact ⟨Or.inr hx, fun hc => hns (Or.inr hc)⟩
      · rintro ⟨rfl | hx, hns⟩
        · exact Or.inl rfl
        · by_cases hxa : x = a
          · exact Or.inl hxa
          · exact Or.inr ⟨hx, fun hc => hc.elim hxa hns⟩

theorem nodup_firstDedupAux {α : Type} [DecidableEq α] (l : List α) :
    ∀ seen : List α, (firstDedupAux seen l).Nodup := by
  induction l with
  | nil => intro seen; simp [firstDedupAux]
  | cons a l ih =>
    intro seen
    by_cases h : a ∈ seen
    · simpa [firstDedupAux, if_pos h] using ih seen
    · simp only [firstDedupAux, if_neg h]
      refine List.Nodup.cons ?_ (ih (a :: seen))
      intro hmem
      exact ((mem_firstDedupAux l (a :: seen) a).1 hmem).2 (List.mem_cons_self a seen)

theorem mem_firstDedup {α : Type} [DecidableEq α] {l : List α} {x : α} :
    x ∈ firstDedup l ↔ x ∈ l := by
  simp [firstDedup, mem_firstDedupAux]

theorem nodup_firstDedup {α : Type} [DecidableEq α] (l : List α) :
    (firstDedup l).Nodup :=
  nodup_firstDedupAux l []

theorem two_mul_length_orderedPairs {α : Type} (l : List α) :
    2 * (orderedPairs l).length = l.length * (l.length - 1) := by
  induction l with
  | nil => rfl
  | cons x xs ih =>
    have identity : ∀ n : Nat, (n + 1) * (n + 1 - 1) = n * (n - 1) + 2 * n := by
      intro n
      cases n with
      | zero => rfl
      | succ m => simp only [Nat.add_sub_cancel]; ring
    simp only [orderedPairs, List.length_append, List.length_map, List.length_cons]
    rw [identity xs.length, ← ih]
    ring

theorem mem_orderedPairs_sorted {l : List String}
    (hs : l.Sorted (fun a b => a < b)) {a b : String}
    (h : (a, b) ∈ orderedPairs l) : a < b := by
  induction l with
  | nil => simp [orderedPairs] at h
  | cons x xs ih =>
    simp only [orderedPairs, List.mem_append, List.mem_map] at h
    rcases h with ⟨y, hy, heq⟩ | h
    · rw [Prod.mk.injEq] at heq
      obtain ⟨rfl, rfl⟩ := heq
      exact (List.sorted_cons.1 hs).1 y hy
    · exact ih (List.sorted_cons.1 hs).2 h

theorem sorted_lt_sortUsers {users : List String} (h : users.Nodup) :
    (List.insertionSort (fun a b => a ≤ b) users).Sorted (fun a b => a < b) := by
  have hperm := (List.perm_insertionSort (fun a b : String => a ≤ b) users).symm
  exact List.Sorted.lt_of_le
    (List.sorted_insertionSort (fun a b : String => a ≤ b) users) (hperm.nodup h)

theorem length_filter_imp {α : Type} {p q : α → Bool}
    (h : ∀ x, p x = true → q x = true) :
    ∀ l : List α, (l.filter p).length ≤ (l.filter q).length := by
  intro l
  induction l with
  | nil => simp
  | cons a l ih =>
    by_cases hp : p a
    · rw [List.filter_cons_of_pos hp, List.filter_cons_of_pos (h a hp)]
      simpa using ih
    · rw [List.filter_cons_of_neg (by simpa using hp)]
      by_cases hq : q a
      · rw [List.filter_cons_of_pos hq]
        exact ih.trans (Nat.le_succ _)
      · rw [List.filter_cons_of_neg (by simpa using hq)]
        exact ih

theorem reduceAux_groupRows (minOcc minKinds : Nat) (p : String × String)
    (sigs : List (String × Nat)) :
    ∀ (rest : List PRow) (m : List (String × Nat)) (t : Nat),
    reduceAux minOcc minKinds (groupRows p sigs ++ rest) (p, m, t)
      = reduceAux minOcc minKinds rest
          (p, foldSig m sigs, t + (sigs.map (fun sc => sc.2)).sum) := by
  induction sigs with
  | nil => intro rest m t; simp [groupRows, foldSig]
  | cons sc sigs ih =>
    intro rest m t
    simp only [groupRows, List.map_cons, List.cons_append, reduceAux]
    rw [if_pos trivial]
    have step := ih rest (sigAdd m sc.1 sc.2) (t + sc.2)
    simp only [groupRows] at step
    simp only [List.append_eq]
    rw [step]
    simp [foldSig, Nat.add_assoc]

theorem foldSig_eq_append (sigs : List (String × Nat)) :
    ∀ m : List (String × Nat),
    (sigs.map (fun sc => sc.1)).Nodup →
    (∀ sc ∈ sigs, ∀ q ∈ m, q.1 ≠ sc.1) →
    foldSig m sigs = m ++ sigs := by
  induction sigs with
  | nil => intro m _ _; simp [foldSig]
  | cons sc sigs ih =>
    intro m hnd hdisj
    rw [List.map_cons, List.nodup_cons] at hnd
    have hany : m.any (fun q => q.1 = sc.1) = false := by
      simp only [List.any_eq_false, decide_eq_true_eq]
      exact fun q hq => hdisj sc (List.mem_cons_self _ _) q hq
    have hadd : sigAdd m sc.1 sc.2 = m ++ [sc] := by
      simp [sigAdd, hany]
    simp only [foldSig, List.foldl_cons]
    have htail : foldSig (m ++ [sc]) sigs = (m ++ [sc]) ++ sigs := by
      refine ih (m ++ [sc]) hnd.2 ?_
      intro sc' hsc' q hq
      rcases List.mem_append.1 hq with hq | hq
      · exact hdisj sc' (List.mem_cons_of_mem _ hsc') q hq
      · have hq' : q = sc := by simpa using hq
        intro hc
        rw [hq'] at hc
        exact hnd.1 (hc ▸ List.mem_map_of_mem (fun x => x.1) hsc')
    show foldSig (sigAdd m sc.1 sc.2) sigs = m ++ sc :: sigs
    rw [hadd, htail, List.append_assoc]
    rfl

theorem reduceAux_flattenGroups (minOcc minKinds : Nat)
    (gs : List ((String × String) × List (String × Nat))) :
    ∀ (p : String × String) (m : List (String × Nat)) (t : Nat),
    (∀ g ∈ gs, g.2 ≠ []) → (∀ g ∈ gs, g.1 ≠ p) →
    (gs.map (fun g => g.1)).Nodup →
    reduceAux minOcc minKinds (flattenGroups gs) (p, m, t)
      = flushEdges minOcc minKinds p m t
          ++ gs.flatMap (emitGroup minOcc minKinds) := by
  induction gs with
  | nil => intro p m t _ _ _; simp [flattenGroups, reduceAux]
  | cons g gs ih =>
    intro p m t hne hp hnd
    obtain ⟨sc, sigs, hg2⟩ : ∃ sc sigs, g.2 = sc :: sigs := by
      cases hg : g.2 with
      | nil => exact absurd hg (hne g (List.mem_cons_self _ _))
      | cons a b => exact ⟨a, b, rfl⟩
    have hflat : flattenGroups (g :: gs)
        = (⟨g.1.1, g.1.2, sc.1, sc.2⟩ : PRow)
            :: (groupRows g.1 sigs ++ flattenGroups gs) := by
      simp [flattenGroups, groupRows, hg2]
    rw [List.map_cons, List.nodup_cons] at hnd
    rw [hflat]
    simp only [reduceAux]
    rw [if_neg (by simpa [Prod.mk.eta] using hp g (List.mem_cons_self _ _))]
    rw [show ((g.1.1, g.1.2) : String × String) = g.1 from Prod.mk.eta]
    rw [reduceAux_groupRows]
    rw [ih g.1 (foldSig (sigAdd [] sc.1 sc.2) sigs) (sc.2 + (sigs.map (fun x => x.2)).sum)
      (fun g' hg' => hne g' (List.mem_cons_of_mem _ hg'))
      (fun g' hg' hc => hnd.1 (hc ▸ List.mem_map_of_mem (fun x => x.1) hg'))
      hnd.2]
    have hemit : emitGroup minOcc minKinds g
        = flushEdges minOcc minKinds g.1
            (foldSig (sigAdd [] sc.1 sc.2) sigs)
            (sc.2 + (sigs.map (fun x => x.2)).sum) := by
      simp [emitGroup, hg2, foldSig]
    simp [hemit, List.append_assoc]

theorem reducePairs_flattenGroups (minOcc minKinds : Nat)
    (gs : List ((String × String) × List (String × Nat)))
    (hne : ∀ g ∈ gs, g.2 ≠ []) (hnd : (gs.map (fun g => g.1)).Nodup) :
    reducePairs minOcc minKinds (flattenGroups gs)
      = gs.flatMap (emitGroup minOcc minKinds) := by
  cases gs with
  | nil => simp [flattenGroups, reducePairs]
  | cons g gs =>
    obtain ⟨sc, sigs, hg2⟩ : ∃ sc sigs, g.2 = sc :: sigs := by
      cases hg : g.2 with
      | nil => exact absurd hg (hne g (List.mem_cons_self _ _))
      | cons a b => exact ⟨a, b, rfl⟩
    have hflat : flattenGroups (g :: gs)
        = (⟨g.1.1, g.1.2, sc.1, sc.2⟩ : PRow)
            :: (groupRows g.1 sigs ++ flattenGroups gs) := by
      simp [flattenGroups, groupRows, hg2]
    rw [List.map_cons, List.nodup_cons] at hnd
    rw [hflat]
    simp only [reducePairs]
    rw [show ((g.1.1, g.1.2) : String × String) = g.1 from Prod.mk.eta]
    rw [reduceAux_groupRows]
    rw [reduceAux_flattenGroups minOcc minKinds gs g.1 _ _
      (fun g' hg' => hne g' (List.mem_cons_of_mem _ hg'))
      (fun g' hg' hc => hnd.1 (hc ▸ List.mem_map_of_mem (fun x => x.1) hg'))
      hnd.2]
    have hemit : emitGroup minOcc minKinds g
        = flushEdges minOcc minKinds g.1
            (foldSig (sigAdd [] sc.1 sc.2) sigs)
            (sc.2 + (sigs.map (fun x => x.2)).sum) := by
      simp [emitGroup, hg2, foldSig]
    simp [hemit]

theorem bucketTopStep_fields (lines : List Line)
    (st : Option (String × String) × Nat × Option String × Nat)
    (it : String × String) :
    bucketTopStep lines st it =
      (if st.2.1 < (itemUsers lines it).length then some it else st.1,
       if st.2.1 < (itemUsers lines it).length then (itemUsers lines it).length
         else st.2.1,
       if st.2.2.2 < (itemUsers lines it).length then some it.1 else st.2.2.1,
       if st.2.2.2 < (itemUsers lines it).length then (itemUsers lines it).length
         else st.2.2.2) := by
  simp only [bucketTopStep]
  by_cases h1 : st.2.1 < (itemUsers lines it).length <;>
    by_cases h2 : st.2.2.2 < (itemUsers lines it).length <;>
      simp [h1, h2]

theorem bucketTop_lockstep_aux (lines : List Line) (its : List (String × String)) :
    ∀ st : Option (String × String) × Nat × Option String × Nat,
    st.2.2.2 = st.2.1 → st.2.2.1 = st.1.map Prod.fst →
    ((its.foldl (bucketTopStep lines) st).2.2.2
        = (its.foldl (bucketTopStep lines) st).2.1
      ∧ (its.foldl (bucketTopStep lines) st).2.2.1
        = (its.foldl (bucketTopStep lines) st).1.map Prod.fst) := by
  induction its with
  | nil => intro st h1 h2; exact ⟨h1, h2⟩
  | cons it its ih =>
    intro st h1 h2
    simp only [List.foldl_cons]
    refine ih (bucketTopStep lines st it) ?_ ?_
    · rw [bucketTopStep_fields, h1]
    · rw [bucketTopStep_fields, h1]
      by_cases h : st.2.1 < (itemUsers lines it).length <;> simp [h, h2]

theorem bucketTop_max_aux (lines : List Line) (its : List (String × String)) :
    ∀ st : Option (String × String) × Nat × Option String × Nat,
    st.2.1 ≤ (its.foldl (bucketTopStep lines) st).2.1
      ∧ ∀ it ∈ its,
        (itemUsers lines it).length ≤ (its.foldl (bucketTopStep lines) st).2.1 := by
  induction its with
  | nil => intro st; exact ⟨le_refl _, by simp⟩
  | cons it its ih =>
    intro st
    simp only [List.foldl_cons]
    have hstep : st.2.1 ≤ (bucketTopStep lines st it).2.1
        ∧ (itemUsers lines it).length ≤ (bucketTopStep lines st it).2.1 := by
      rw [bucketTopStep_fields]
      by_cases h : st.2.1 < (itemUsers lines it).length
      · exact ⟨by simp [h, Nat.le_of_lt h], by simp [h]⟩
      · exact ⟨by simp [h], by simp [h, Nat.le_of_not_lt h]⟩
    obtain ⟨hmono, hall⟩ := ih (bucketTopStep lines st it)
    refine ⟨hstep.1.trans hmono, ?_⟩
    intro it' hit'
    rcases List.mem_cons.1 hit' with rfl | hit'
    · exact hstep.2.trans hmono
    · exact hall it' hit'

theorem bucketTop_attain_aux (lines : List Line) (its : List (String × String)) :
    ∀ (st : Option (String × String) × Nat × Option String × Nat)
      (it0 : String × String),
    (its.foldl (bucketTopStep lines) st).1 = some it0 →
    (st.1 = some it0 ∧ (its.foldl (bucketTopStep lines) st).2.1 = st.2.1)
      ∨ (it0 ∈ its
          ∧ (itemUsers lines it0).length = (its.foldl (bucketTopStep lines) st).2.1) := by
  induction its with
  | nil => intro st it0 h; exact Or.inl ⟨h, rfl⟩
  | cons it its ih =>
    intro st it0 h
    simp only [List.foldl_cons] at h ⊢
    have hc1 : (bucketTopStep lines st it).1
        = if st.2.1 < (itemUsers lines it).length then some it else st.1 := by
      rw [bucketTopStep_fields]
    have hc2 : (bucketTopStep lines st it).2.1
        = if st.2.1 < (itemUsers lines it).length then (itemUsers lines it).length
            else st.2.1 := by
      rw [bucketTopStep_fields]
    rcases ih (bucketTopStep lines st it) it0 h with ⟨hfst, hcnt⟩ | ⟨hmem, hcnt⟩
    · rw [hc1] at hfst
      rw [hc2] at hcnt
      by_cases hc : st.2.1 < (itemUsers lines it).length
      · rw [if_pos hc] at hfst hcnt
        have heq : it = it0 := Option.some.inj hfst
        subst heq
        exact Or.inr ⟨List.mem_cons_self _ _, hcnt.symm⟩
      · rw [if_neg hc] at hfst hcnt
        exact Or.inl ⟨hfst, hcnt⟩
    · exact Or.inr ⟨List.mem_cons_of_mem _ hmem, hcnt⟩

theorem to_bip_item_some {s v x : String} (h : to_bip_item s v = some x) :
    v ≠ "" ∧ (x = "DOM:" ++ v ∨ x = "RT:" ++ v ∨ x = "CONV:" ++ v
      ∨ x = "MENT:@" ++ v ∨ x = "TAG:#" ++ v) := by
  unfold to_bip_item at h
  split_ifs at h with h0 h1 h2 h3 h4 h5
  · exact ⟨h0, Or.inl (Option.some.inj h).symm⟩
  · exact ⟨h0, Or.inr (Or.inl (Option.some.inj h).symm)⟩
  · exact ⟨h0, Or.inr (Or.inr (Or.inl (Option.some.inj h).symm))⟩
  · exact ⟨h0, Or.inr (Or.inr (Or.inr (Or.inl (Option.some.inj h).symm)))⟩
  · exact ⟨h0, Or.inr (Or.inr (Or.inr (Or.inr (Option.some.inj h).symm)))⟩

/-! ## Claim theorems -/

/-- C2 (confirmed): for every bucket file and every item whose
distinct-user set has size `k` with `2 ≤ k ≤ max_users_per_item`, the
per-bucket aggregator emits exactly `k*(k-1)/2` pair increments for that
item, each with `user_a < user_b` and carrying the item's own signal
kind. -/
theorem C2_pair_increments (cap : Nat) (lines : List Line) (it : String × String)
    (h2 : 2 ≤ (itemUsers lines it).length)
    (hcap : (itemUsers lines it).length ≤ cap) :
    (itemPairIncrements cap lines it).length
        = (itemUsers lines it).length * ((itemUsers lines it).length - 1) / 2
      ∧ ∀ x ∈ itemPairIncrements cap lines it, x.1 < x.2.1 ∧ x.2.2 = it.1 := by
  have hguard : itemPairIncrements cap lines it
      = (orderedPairs
          (List.insertionSort (fun a b => a ≤ b) (itemUsers lines it))).map
            (fun ab => (ab.1, ab.2, it.1)) := by
    simp only [itemPairIncrements]
    rw [if_neg (by omega), if_neg (by omega)]
  have hnd : (itemUsers lines it).Nodup := nodup_firstDedup _
  have hsorted := sorted_lt_sortUsers hnd
  constructor
  · rw [hguard, List.length_map]
    have h2l := two_mul_length_orderedPairs
      (List.insertionSort (fun a b : String => a ≤ b) (itemUsers lines it))
    rw [List.length_insertionSort] at h2l
    omega
  · intro x hx
    rw [hguard] at hx
    obtain ⟨ab, hab, rfl⟩ := List.mem_map.1 hx
    exact ⟨mem_orderedPairs_sorted hsorted (by simpa using hab), rfl⟩

/-- C2 witness: a two-user item yields exactly one canonical increment. -/
theorem C2_pair_increments_witness :
    (itemPairIncrements 200 linesC2 ("B_TAG", "x")).length
        = (itemUsers linesC2 ("B_TAG", "x")).length
            * ((itemUsers linesC2 ("B_TAG", "x")).length - 1) / 2
      ∧ ∀ x ∈ itemPairIncrements 200 linesC2 ("B_TAG", "x"),
          x.1 < x.2.1 ∧ x.2.2 = ("B_TAG", "x").1 :=
  C2_pair_increments 200 linesC2 ("B_TAG", "x") (by decide) (by decide)

/-- C3 (confirmed): an item whose distinct-user count exceeds the per-item
cap contributes zero pairwise increments in its bucket, yet such an item
can still be reported as the bucket's top_item and top_signal (witnessed
by a bucket whose only — hence dominant — item exceeds the cap). -/
theorem C3_cap_excludes (cap : Nat) (lines : List Line) (it : String × String)
    (hcap : cap < (itemUsers lines it).length) :
    itemPairIncrements cap lines it = []
      ∧ ∃ (ls : List Line) (c : Nat) (i : String × String),
          c < (itemUsers ls i).length
            ∧ itemPairIncrements c ls i = []
            ∧ bucketTopItem ls = some i
            ∧ bucketTopSignal ls = some i.1 := by
  constructor
  · simp only [itemPairIncrements]
    by_cases h1 : (itemUsers lines it).length < 2
    · rw [if_pos h1]
    · rw [if_neg h1, if_pos hcap]
  · exact ⟨linesC3, 2, ("S", "v"), by decide, by decide, by decide, by decide⟩

/-- C3 witness: three users sharing one item under cap 2. -/
theorem C3_cap_excludes_witness :
    itemPairIncrements 2 linesC3 ("S", "v") = []
      ∧ ∃ (ls : List Line) (c : Nat) (i : String × String),
          c < (itemUsers ls i).length
            ∧ itemPairIncrements c ls i = []
            ∧ bucketTopItem ls = some i
            ∧ bucketTopSignal ls = some i.1 :=
  C3_cap_excludes 2 linesC3 ("S", "v") (by decide)

/-- C4 counterexample: a single timestamped record repeating the same
hashtag twice is counted twice by pass 1, not once per event as the claim
states. -/
theorem C4_cex : item_counts [rC4] ("B_TAG", "x") = 2
    ∧ specEventsContaining [rC4] ("B_TAG", "x") = 1 := by
  decide

/-- C4 (corrected): the pass-1 global count of an item counts occurrences
with multiplicity; it equals the number of timestamped records containing
the item exactly when no record lists that item more than once. -/
theorem C4_count_per_event (recs : List Rec) (it : String × String)
    (hnodup : ∀ r ∈ recs, ((pass1_items r).filter (fun k => k = it)).length ≤ 1) :
    item_counts recs it = specEventsContaining recs it := by
  induction recs with
  | nil => rfl
  | cons r recs ih =>
    have htail := ih (fun r' hr' => hnodup r' (List.mem_cons_of_mem _ hr'))
    have hhead := hnodup r (List.mem_cons_self _ _)
    simp only [item_counts, specEventsContaining] at htail ⊢
    simp only [List.flatMap_cons, List.filter_append, List.length_append]
    by_cases hmem : it ∈ pass1_items r
    · have hpos : 0 < ((pass1_items r).filter (fun k => k = it)).length :=
        List.length_pos_of_mem (List.mem_filter.2 ⟨hmem, by simp⟩)
      have h1 : ((pass1_items r).filter (fun k => k = it)).length = 1 :=
        le_antisymm hhead hpos
      rw [h1, htail, List.filter_cons_of_pos (by simpa using hmem)]
      simp [Nat.add_comm]
    · have h0 : ((pass1_items r).filter (fun k => k = it)) = [] := by
        rw [List.filter_eq_nil_iff]
        intro a ha hc
        exact hmem ((of_decide_eq_true hc) ▸ ha)
      rw [h0, htail, List.filter_cons_of_neg (by simpa using hmem)]
      simp

/-- C4 witness: with one occurrence per record the two counts agree. -/
theorem C4_count_per_event_witness :
    item_counts [rC4w] ("B_TAG", "x") = specEventsContaining [rC4w] ("B_TAG", "x") :=
  C4_count_per_event [rC4w] ("B_TAG", "x") (by decide)

/-- C6 counterexample: a record with a parseable timestamp but no user
identifier still contributes to the pass-1 global item frequency count,
contradicting "contributes nothing to any pass". -/
theorem C6_cex : rC6.author_id = "" ∧ item_counts [rC6] ("B_TAG", "x") = 1 := by
  decide

/-- C6 (corrected): a record without a parseable timestamp is silently
dropped from all passes; a record lacking a user identifier is dropped
from bucketing (pass 2) and the user-item pass (3b) but still feeds the
pass-1 global frequency count, which never checks the user. -/
theorem C6_dropped_records (keep : String × String → Bool) (r : Rec) :
    (r.published_ts = none →
        pass1_items r = [] ∧ pass2_lines keep r = [] ∧ pass3b_entries keep r = [])
      ∧ (r.author_id = "" →
          pass2_lines keep r = [] ∧ pass3b_entries keep r = []) := by
  constructor
  · intro h
    simp [pass1_items, pass2_lines, pass3b_entries, h]
  · intro h
    cases hts : r.published_ts with
    | none => simp [pass2_lines, pass3b_entries, hts]
    | some ts => simp [pass2_lines, pass3b_entries, hts, h]

/-- C6 witness: a timestampless record and a userless record. -/
theorem C6_dropped_records_witness :
    (pass1_items rC6b = [] ∧ pass2_lines (fun _ => true) rC6b = []
        ∧ pass3b_entries (fun _ => true) rC6b = [])
      ∧ (pass2_lines (fun _ => true) rC6 = []
        ∧ pass3b_entries (fun _ => true) rC6 = []) :=
  ⟨(C6_dropped_records (fun _ => true) rC6b).1 rfl,
   (C6_dropped_records (fun _ => true) rC6).2 rfl⟩

/-- C9 counterexample: with an empty edge set the top-clusters report file
is not written at all, contradicting "every report artifact is still
emitted, containing zero data rows". -/
theorem C9_cex : (runReports [] [] []).top_clusters_csv = none := rfl

/-- C9 (corrected): with an empty edge set the run still terminates and
the edge table, cluster table, top-edges report and time-window report are
emitted (the first three with zero data rows, the time-window report with
its bucket rows), but the top-clusters report and the coordination-graph
file are omitted rather than written empty. -/
theorem C9_empty_reports (bip : List (String × String × Nat))
    (stats : List (Int × BucketStat)) :
    (runReports [] bip stats).edges_csv = []
      ∧ (runReports [] bip stats).clusters_csv = []
      ∧ (runReports [] bip stats).top_edges_csv = []
      ∧ (runReports [] bip stats).top_clusters_csv = none
      ∧ (runReports [] bip stats).graph_gexf_written = false
      ∧ ((runReports [] bip stats).time_windows_csv).Perm stats :=
  ⟨rfl, rfl, rfl, rfl, rfl, List.perm_insertionSort _ stats⟩

/-- C10 (confirmed): every `user_item` entry carries an item label of kind
domain, retweet-target, conversation, mention, or hashtag, and the URL,
quote-target and reply-target kinds are never recorded in the bipartite
view. -/
theorem C10_bip_kinds (keep : String × String → Bool) (r : Rec)
    (u item : String) (hmem : (u, item) ∈ pass3b_entries keep r) :
    (∃ v, v ≠ "" ∧ (item = "DOM:" ++ v ∨ item = "RT:" ++ v ∨ item = "CONV:" ++ v
        ∨ item = "MENT:@" ++ v ∨ item = "TAG:#" ++ v))
      ∧ ∀ v : String, to_bip_item "A_URL" v = none
          ∧ to_bip_item "D_QUOTE" v = none ∧ to_bip_item "E_REPLY" v = none := by
  constructor
  · unfold pass3b_entries at hmem
    rcases hts : r.published_ts with _ | ts
    · rw [hts] at hmem
      exact absurd hmem (List.not_mem_nil _)
    · rw [hts] at hmem
      by_cases hu : r.author_id = ""
      · rw [if_pos hu] at hmem
        exact absurd hmem (List.not_mem_nil _)
      · rw [if_neg hu] at hmem
        obtain ⟨sv, _, hsv⟩ := List.mem_filterMap.1 hmem
        by_cases hk : keep sv
        · rw [if_pos hk] at hsv
          obtain ⟨b, hb, hub⟩ := Option.map_eq_some'.1 hsv
          have hbi : b = item := congrArg Prod.snd hub
          obtain ⟨hv, hforms⟩ := to_bip_item_some hb
          exact ⟨sv.2, hv, hbi ▸ hforms⟩
        · rw [if_neg hk] at hsv
          exact absurd hsv (by simp)
  · intro v
    by_cases hv : v = "" <;>
      refine ⟨?_, ?_, ?_⟩ <;>
        simp [to_bip_item, hv]

/-- C10 witness: a domain item yields a `DOM:`-prefixed bipartite entry. -/
theorem C10_bip_kinds_witness :
    (∃ v, v ≠ "" ∧ ("DOM:example.com" = "DOM:" ++ v
        ∨ "DOM:example.com" = "RT:" ++ v ∨ "DOM:example.com" = "CONV:" ++ v
        ∨ "DOM:example.com" = "MENT:@" ++ v ∨ "DOM:example.com" = "TAG:#" ++ v))
      ∧ ∀ v : String, to_bip_item "A_URL" v = none
          ∧ to_bip_item "D_QUOTE" v = none ∧ to_bip_item "E_REPLY" v = none :=
  C10_bip_kinds (fun _ => true) rC10 "u1" "DOM:example.com" (by decide)

/-- C5 counterexample: in `linesC5` the signal kind `S2` reaches 4
distinct users across its items while `S1`'s best item has only 3, yet the
bucket's top_signal is `S1` — top_signal does not maximize the union of
user sets per signal kind. -/
theorem C5_cex : bucketTopSignal linesC5 = some "S1"
    ∧ specSignalUnionUsers linesC5 "S2" = 4
    ∧ specSignalUnionUsers linesC5 "S1" = 3 := by
  decide

/-- C5 (corrected): the bucket's top_signal is the signal kind of its
top_item — the single item with the greatest distinct-user count (first
strict maximum in dict order) — not the kind with the largest union of
user sets; the computation is independent of the per-item cap. -/
theorem C5_top_signal (lines : List Line) :
    bucketTopSignal lines = (bucketTopItem lines).map Prod.fst
      ∧ (∀ it ∈ bucketItems lines,
          (itemUsers lines it).length ≤ (bucketTop lines).2.1)
      ∧ ∀ it0, bucketTopItem lines = some it0 →
          it0 ∈ bucketItems lines
            ∧ (itemUsers lines it0).length = (bucketTop lines).2.1 := by
  refine ⟨?_, ?_, ?_⟩
  · exact (bucketTop_lockstep_aux lines (bucketItems lines) (none, 0, none, 0) rfl rfl).2
  · intro it hit
    exact (bucketTop_max_aux lines (bucketItems lines) (none, 0, none, 0)).2 it hit
  · intro it0 h
    rcases bucketTop_attain_aux lines (bucketItems lines) (none, 0, none, 0) it0 h
      with ⟨hfst, _⟩ | ⟨hmem, hcnt⟩
    · exact absurd hfst (by simp)
    · exact ⟨hmem, hcnt⟩

/-- C5 witness: the lockstep and maximality facts at the concrete bucket. -/
theorem C5_top_signal_witness :
    bucketTopSignal linesC5 = (bucketTopItem linesC5).map Prod.fst
      ∧ (itemUsers linesC5 ("S1", "v1")).length ≤ (bucketTop linesC5).2.1 :=
  ⟨(C5_top_signal linesC5).1, (C5_top_signal linesC5).2.1 ("S1", "v1") (by decide)⟩

theorem flushEdges_length_le {minOcc minOcc' minKinds minKinds' : Nat}
    (hocc : minOcc ≤ minOcc') (hkinds : minKinds ≤ minKinds')
    (p : String × String) (m : List (String × Nat)) (t : Nat) :
    (flushEdges minOcc' minKinds' p m t).length
      ≤ (flushEdges minOcc minKinds p m t).length := by
  have hfl : (signalsMet minOcc' m).length ≤ (signalsMet minOcc m).length := by
    simp only [signalsMet, List.length_map]
    refine length_filter_imp ?_ m
    intro x hx
    simp only [decide_eq_true_eq] at hx ⊢
    omega
  simp only [flushEdges]
  split_ifs with h1 h2
  · simp
  · exfalso; omega
  · simp
  · simp

theorem reduceAux_length_le {minOcc minOcc' minKinds minKinds' : Nat}
    (hocc : minOcc ≤ minOcc') (hkinds : minKinds ≤ minKinds') :
    ∀ (rows : List PRow) (st : (String × String) × List (String × Nat) × Nat),
    (reduceAux minOcc' minKinds' rows st).length
      ≤ (reduceAux minOcc minKinds rows st).length := by
  intro rows
  induction rows with
  | nil => intro st; exact flushEdges_length_le hocc hkinds st.1 st.2.1 st.2.2
  | cons row rest ih =>
    intro st
    simp only [reduceAux]
    by_cases h : (row.user_a, row.user_b) = st.1
    · rw [if_pos h, if_pos h]
      exact ih _
    · rw [if_neg h, if_neg h]
      simp only [List.length_append]
      exact Nat.add_le_add (flushEdges_length_le hocc hkinds st.1 st.2.1 st.2.2) (ih _)

/-- C7 (confirmed): raising the per-signal minimum occurrence threshold or
the minimum number of distinct signal kinds never increases the number of
coordination edges the reduction emits on the same row stream. -/
theorem C7_threshold_antitone (minOcc minOcc' minKinds minKinds' : Nat)
    (rows : List PRow) (hocc : minOcc ≤ minOcc') (hkinds : minKinds ≤ minKinds') :
    (reducePairs minOcc' minKinds' rows).length
      ≤ (reducePairs minOcc minKinds rows).length := by
  cases rows with
  | nil => exact le_refl _
  | cons row rest =>
    simp only [reducePairs]
    exact reduceAux_length_le hocc hkinds rest _

/-- C7 witness: tightening the per-signal minimum from 2 to 3 on the
concrete store does not increase the edge count. -/
theorem C7_threshold_antitone_witness :
    (reducePairs 3 2 rowsW).length ≤ (reducePairs 2 2 rowsW).length :=
  C7_threshold_antitone 2 3 2 2 rowsW (by decide) (by decide)

theorem emitGroup_pair (minOcc minKinds : Nat)
    (g : (String × String) × List (String × Nat)) (e : PEdge)
    (he : e ∈ emitGroup minOcc minKinds g) : (e.user_a, e.user_b) = g.1 := by
  simp only [emitGroup, flushEdges] at he
  split_ifs at he with h
  · rw [List.mem_singleton.1 he]
  · exact absurd he (List.not_mem_nil _)

theorem emitGroup_eq_of_nodup (minOcc minKinds : Nat) (p : String × String)
    (sigs : List (String × Nat)) (hnd : (sigs.map (fun sc => sc.1)).Nodup) :
    emitGroup minOcc minKinds (p, sigs)
      = flushEdges minOcc minKinds p sigs ((sigs.map (fun sc => sc.2)).sum) := by
  simp only [emitGroup]
  rw [foldSig_eq_append sigs [] (by simpa using hnd) (by simp)]
  simp

/-- C1 (confirmed): for a `pair_signal` store streamed grouped by user
pair (one row per signal, as the primary key guarantees), a
CoordinationEdge is emitted for a pair iff at least 2 distinct signal
kinds have accumulated count at least `min_occurrences_per_signal`, and
the emitted edge's total_occurrences is the sum of counts over ALL signal
kinds of that pair, met or not. -/
theorem C1_edge_iff (minOcc : Nat)
    (gs : List ((String × String) × List (String × Nat)))
    (hne : ∀ g ∈ gs, g.2 ≠ [])
    (hkeys : (gs.map (fun g => g.1)).Nodup)
    (hsig : ∀ g ∈ gs, (g.2.map (fun sc => sc.1)).Nodup)
    (p : String × String) (sigs : List (String × Nat))
    (hmem : (p, sigs) ∈ gs) :
    ((∃ e ∈ reducePairs minOcc 2 (flattenGroups gs), (e.user_a, e.user_b) = p)
        ↔ 2 ≤ (sigs.filter (fun sc => minOcc ≤ sc.2)).length)
      ∧ ∀ e ∈ reducePairs minOcc 2 (flattenGroups gs),
          (e.user_a, e.user_b) = p →
            e.total_occurrences = (sigs.map (fun sc => sc.2)).sum := by
  rw [reducePairs_flattenGroups minOcc 2 gs hne hkeys]
  have hemit : emitGroup minOcc 2 (p, sigs)
      = flushEdges minOcc 2 p sigs ((sigs.map (fun sc => sc.2)).sum) :=
    emitGroup_eq_of_nodup minOcc 2 p sigs (hsig _ hmem)
  have hmetlen : (signalsMet minOcc sigs).length
      = (sigs.filter (fun sc => minOcc ≤ sc.2)).length := by
    simp only [signalsMet, List.length_map]
  have hguniq : ∀ g ∈ gs, g.1 = p → g = (p, sigs) := by
    intro g hg hgp
    exact List.inj_on_of_nodup_map hkeys hg hmem (by rw [hgp])
  constructor
  · constructor
    · rintro ⟨e, he, hep⟩
      obtain ⟨g, hg, heg⟩ := List.mem_flatMap.1 he
      have hgp : g.1 = p := (emitGroup_pair minOcc 2 g e heg).symm.trans hep
      rw [hguniq g hg hgp, hemit] at heg
      simp only [flushEdges] at heg
      split_ifs at heg with hcond
      · rwa [hmetlen] at hcond
      · exact absurd heg (List.not_mem_nil _)
    · intro hcount
      have hcond : 2 ≤ (signalsMet minOcc sigs).length := by
        rw [hmetlen]; exact hcount
      refine ⟨⟨p.1, p.2, (signalsMet minOcc sigs).length,
          (sigs.map (fun sc => sc.2)).sum,
          List.insertionSort (fun a b => a ≤ b) (signalsMet minOcc sigs), sigs⟩,
        ?_, Prod.mk.eta⟩
      apply List.mem_flatMap.2
      refine ⟨(p, sigs), hmem, ?_⟩
      rw [hemit]
      simp only [flushEdges]
      rw [if_pos hcond]
      exact List.mem_singleton.2 rfl
  · intro e he hep
    obtain ⟨g, hg, heg⟩ := List.mem_flatMap.1 he
    have hgp : g.1 = p := (emitGroup_pair minOcc 2 g e heg).symm.trans hep
    rw [hguniq g hg hgp, hemit] at heg
    simp only [flushEdges] at heg
    split_ifs at heg with hcond
    · rw [List.mem_singleton.1 heg]
    · exact absurd heg (List.not_mem_nil _)

/-- C1 witness: the pair (a,b) with two met signal kinds gets an edge. -/
theorem C1_edge_iff_witness :
    ∃ e ∈ reducePairs 2 2 (flattenGroups gsW), (e.user_a, e.user_b) = ("a", "b") :=
  ((C1_edge_iff 2 gsW (by decide) (by decide) (by decide) ("a", "b")
      [("A_DOM", 2), ("B_TAG", 3)] (by decide)).1).2 (by decide)
